import Mathlib

/-!
Shallow embedding of the astronomy routines of the stargazing-guide
repository, together with proofs about them.

Real-valued JavaScript arithmetic is modelled over `ℝ` (exact reals);
date/Julian-day arithmetic, which the source performs with `Math.floor`
on decimal literals, is modelled over `ℚ` so it stays computable.
`undefined`/non-finite optional arguments are modelled with `Option`.
-/

namespace SkyGuide

open Real

/-! ## JavaScript numeric primitives -/

/-- Truncation toward zero, the rounding used by the JavaScript `%` operator. -/
noncomputable def jsTrunc (x : ℝ) : ℤ :=
  if x < 0 then -⌊-x⌋ else ⌊x⌋

/-- The JavaScript remainder operator `x % y` (sign follows the dividend). -/
noncomputable def jsRem (x y : ℝ) : ℝ :=
  x - y * (jsTrunc (x / y) : ℝ)

/-- Source `normalizeAngle` (both in the astro-calculations module and in
`astroMath.ts`): reduce an angle in degrees to `[0, 360)`:
`let n = deg % 360; if (n < 0) n += 360; return n`. -/
noncomputable def normalizeAngle (deg : ℝ) : ℝ :=
  if jsRem deg 360 < 0 then jsRem deg 360 + 360 else jsRem deg 360

/-- Source `toRadians`. -/
noncomputable def toRadians (degrees : ℝ) : ℝ := degrees * (Real.pi / 180)

/-- Source `toDegrees`. -/
noncomputable def toDegrees (radians : ℝ) : ℝ := radians * (180 / Real.pi)

/-- JavaScript `Math.atan2 y x`, modelled by the argument of the complex
number `x + y i` (range `(-π, π]`, `atan2 0 0 = 0`, matching JS). -/
noncomputable def atan2 (y x : ℝ) : ℝ := Complex.arg (x + y * Complex.I)

/-- The clamp `Math.max(-1, Math.min(1, x))` used before `asin`/`acos`. -/
noncomputable def clampUnit (x : ℝ) : ℝ := max (-1) (min 1 x)

/-! ## Data model of the coordinate-transform module -/

/-- Source `EquatorialCoords`: RA in degrees `[0,360)`, Dec in degrees
`[-90, 90]`. -/
structure EquatorialCoords where
  ra : ℝ
  dec : ℝ

/-- Source `SkyPosition`: altitude and azimuth in degrees. -/
structure SkyPosition where
  altitude : ℝ
  azimuth : ℝ

/-- Source `ObserverLocation`. -/
structure ObserverLocation where
  latitude : ℝ
  longitude : ℝ

/-- UTC calendar instant, as obtained from the source `Date` accessors
(`getUTCFullYear`, `getUTCMonth() + 1`, ...). -/
structure DateUTC where
  year : ℤ
  month : ℤ
  day : ℤ
  hour : ℤ
  minute : ℤ
  second : ℤ

/-- The Julian-date computation inside source `calculateLST`, over `ℚ`
(the source performs it with exact outcomes on these integer inputs). -/
def julianDateOf (dt : DateUTC) : ℚ :=
  let y : ℤ := if dt.month ≤ 2 then dt.year - 1 else dt.year
  let m : ℤ := if dt.month ≤ 2 then dt.month + 12 else dt.month
  let a : ℤ := ⌊(y : ℚ) / 100⌋
  let b : ℤ := 2 - a + ⌊(a : ℚ) / 4⌋
  let jd : ℚ := ⌊(365.25 : ℚ) * ((y : ℚ) + 4716)⌋ + ⌊(30.6001 : ℚ) * ((m : ℚ) + 1)⌋
    + (dt.day : ℚ) + (b : ℚ) - 1524.5
  let ut : ℚ := (dt.hour : ℚ) + (dt.minute : ℚ) / 60 + (dt.second : ℚ) / 3600
  jd + ut / 24

/-- Greenwich mean sidereal time polynomial of source `calculateLST`,
before normalisation, over `ℚ`. -/
def gmstOf (dt : DateUTC) : ℚ :=
  280.46061837 + 360.98564736629 * (julianDateOf dt - 2451545.0)

/-- Source `calculateLST date longitude`. -/
noncomputable def calculateLST (dt : DateUTC) (longitude : ℝ) : ℝ :=
  normalizeAngle ((gmstOf dt : ℝ) + longitude)

/-- Source `equatorialToHorizontal` of the astronomy-calculations module. -/
noncomputable def equatorialToHorizontal (equatorial : EquatorialCoords)
    (observer : ObserverLocation) (dt : DateUTC) : SkyPosition :=
  let lst := calculateLST dt observer.longitude
  let hourAngle := normalizeAngle (lst - equatorial.ra)
  let haRad := toRadians hourAngle
  let decRad := toRadians equatorial.dec
  let latRad := toRadians observer.latitude
  let sinAlt := Real.sin decRad * Real.sin latRad
    + Real.cos decRad * Real.cos latRad * Real.cos haRad
  let altitude := toDegrees (Real.arcsin sinAlt)
  let cosAz := (Real.sin decRad - Real.sin latRad * sinAlt)
    / (Real.cos latRad * Real.cos (toRadians altitude))
  let azimuth := toDegrees (Real.arccos (clampUnit cosAz))
  let azimuth2 := if 0 < Real.sin haRad then 360 - azimuth else azimuth
  ⟨altitude, normalizeAngle azimuth2⟩

/-- Source `horizontalToEquatorial` of the astronomy-calculations module. -/
noncomputable def horizontalToEquatorial (horizontal : SkyPosition)
    (observer : ObserverLocation) (dt : DateUTC) : EquatorialCoords :=
  let lst := calculateLST dt observer.longitude
  let altRad := toRadians horizontal.altitude
  let azRad := toRadians horizontal.azimuth
  let latRad := toRadians observer.latitude
  let sinDec := Real.sin altRad * Real.sin latRad
    + Real.cos altRad * Real.cos latRad * Real.cos azRad
  let decRad := Real.arcsin (clampUnit sinDec)
  let dec := toDegrees decRad
  let cosDec := Real.cos decRad
  let sinH := -(Real.sin azRad * Real.cos altRad) / max 1e-9 cosDec
  let cosH := (Real.sin altRad - Real.sin latRad * Real.sin decRad)
    / (Real.cos latRad * max 1e-9 cosDec)
  let hourAngle := normalizeAngle (toDegrees (atan2 sinH cosH))
  let ra := normalizeAngle (lst - hourAngle)
  ⟨ra, dec⟩

/-! ## Sky-visibility module (Bortle, twilight, moon wash) — exact `ℚ`
arithmetic; `Option ℚ` models optional arguments, with `none` standing for
any value whose `Number.isFinite` test fails (`undefined`, `NaN`, `±∞`). -/

/-- Source `clamp01`. -/
def clamp01 (v : ℚ) : ℚ := max 0 (min 1 v)

/-- Source `lerp`. -/
def lerp (a b t : ℚ) : ℚ := a + (b - a) * t

/-- Source `BORTLE_LIMITING_MAG` table. -/
def BORTLE_LIMITING_MAG : List ℚ := [8.0, 7.6, 7.1, 6.6, 6.1, 5.6, 5.1, 4.6, 4.1]

/-- JavaScript `Math.round` (round half toward positive infinity). -/
def jsRound (x : ℚ) : ℤ := ⌊x + 1/2⌋

/-- JavaScript array indexing `l[i]`: `undefined` (`none`) outside bounds,
including negative indices. -/
def jsIndex (l : List ℚ) (i : ℤ) : Option ℚ :=
  if i < 0 then none else l.get? i.toNat

/-- Source `getBortleLimitingMagnitude`:
`BORTLE_LIMITING_MAG[Math.round(bortleScale) - 1] ?? 6.0`. -/
def getBortleLimitingMagnitude (bortleScale : ℚ) : ℚ :=
  (jsIndex BORTLE_LIMITING_MAG (jsRound bortleScale - 1)).getD 6.0

/-- Source `twilightFactor`. -/
def twilightFactor (sunAltitudeDeg : ℚ) : ℚ :=
  clamp01 ((-sunAltitudeDeg - 6) / 12)

/-- Source `moonWashFactor`: returns 0 when either argument fails
`Number.isFinite` (modelled by `none`), otherwise
`clamp01(clamp01(illum) * (0.35 + 0.65 * clamp01((alt + 2) / 22)))`. -/
def moonWashFactor (moonAltitudeDeg moonIlluminationFrac : Option ℚ) : ℚ :=
  match moonAltitudeDeg, moonIlluminationFrac with
  | some alt, some rawIllum =>
    clamp01 (clamp01 rawIllum * (0.35 + 0.65 * clamp01 ((alt + 2) / 22)))
  | _, _ => 0

/-- Source `SkyVisibilityInputs`. -/
structure SkyVisibilityInputs where
  bortleScale : ℚ
  sunAltitudeDeg : ℚ
  moonAltitudeDeg : Option ℚ
  moonIlluminationFrac : Option ℚ

/-- Source `effectiveNakedEyeLimitingMagnitude`. -/
def effectiveNakedEyeLimitingMagnitude (inputs : SkyVisibilityInputs) : ℚ :=
  let base := getBortleLimitingMagnitude inputs.bortleScale
  let tw := twilightFactor inputs.sunAltitudeDeg
  let mw := moonWashFactor inputs.moonAltitudeDeg inputs.moonIlluminationFrac
  let lim := lerp 2.5 base tw
  max (-1.5) (min 9.0 (lim - 2.0 * mw))

/-! ## Comet orbit module -/

/-- Source `CometElements`, restricted to the fields the position routine
reads. `perihelionTimeJsMs?` models `perihelionTime(elements)`: the parsed
epoch milliseconds of `perihelionTimeUtc`, or `none` when parsing fails. -/
structure CometElements where
  perihelionTimeJsMs? : Option ℝ
  perihelionDistanceAu : ℝ
  eccentricity : ℝ
  argPerihelionDeg : ℝ
  ascNodeDeg : ℝ
  inclinationDeg : ℝ

/-- Source constant `DEG2RAD`. -/
noncomputable def DEG2RAD : ℝ := Real.pi / 180

/-- One Newton step plus the tail of the loop in `solveKeplerElliptic`:
update `E`, then stop if `|dE| < 1e-12`, else recurse on the remaining
iteration budget. -/
noncomputable def keplerIter (M e : ℝ) : ℕ → ℝ → ℝ
  | 0, E => E
  | n + 1, E =>
    let f := E - e * Real.sin E - M
    let fp := 1 - e * Real.cos E
    let dE := -f / fp
    let E2 := E + dE
    if |dE| < 1e-12 then E2 else keplerIter M e n E2

/-- Source `solveKeplerElliptic`: Newton iteration for `M = E - e sin E`,
starting at `M` when `e < 0.8`, else at `π`, with at most 12 iterations. -/
noncomputable def solveKeplerElliptic (M e : ℝ) : ℝ :=
  keplerIter M e 12 (if e < 0.8 then M else Real.pi)

/-- Heliocentric ecliptic position with its radius, the payload of
source `cometHeliocentricEclipticJ2000`. -/
structure HelioEcliptic where
  x : ℝ
  y : ℝ
  z : ℝ
  r : ℝ

/-- Source `cometHeliocentricEclipticJ2000 elements time` (time in epoch
milliseconds). The `Number.isFinite` guards of the first test are vacuous
in the real-valued model. -/
noncomputable def cometHeliocentricEclipticJ2000 (elements : CometElements)
    (time : ℝ) : Option HelioEcliptic :=
  let q := elements.perihelionDistanceAu
  let e := elements.eccentricity
  if ¬(0 < q) ∨ ¬(0 ≤ e) then none
  else
    match elements.perihelionTimeJsMs? with
    | none => none
    | some tp =>
      let i := elements.inclinationDeg * DEG2RAD
      let w := elements.argPerihelionDeg * DEG2RAD
      let node := elements.ascNodeDeg * DEG2RAD
      let mu : ℝ := 1.0
      let k : ℝ := 0.01720209895
      let k2 := k * k
      let dtDays := (time - tp) / 86400000
      if 1 ≤ e then none
      else
        let a := q / (1 - e)
        let n := Real.sqrt (k2 * mu / (a * a * a))
        let M0 := n * dtDays
        let M := jsRem (M0 + Real.pi) (2 * Real.pi) - Real.pi
        let E := solveKeplerElliptic M e
        let cosE := Real.cos E
        let sinE := Real.sin E
        let r := a * (1 - e * cosE)
        let nu := atan2 (Real.sqrt (1 - e * e) * sinE) (cosE - e)
        let xP := r * Real.cos nu
        let yP := r * Real.sin nu
        let zP : ℝ := 0
        let x1 := xP * Real.cos w - yP * Real.sin w
        let y1 := xP * Real.sin w + yP * Real.cos w
        let z1 := zP
        let x2 := x1
        let y2 := y1 * Real.cos i - z1 * Real.sin i
        let z2 := y1 * Real.sin i + z1 * Real.cos i
        some ⟨x2 * Real.cos node - y2 * Real.sin node,
              x2 * Real.sin node + y2 * Real.cos node, z2, r⟩

/-! ## Fisheye screen projection (`SkyViewer`) -/

/-- Result of source `projectToScreen`. -/
structure ScreenPoint where
  x : ℝ
  y : ℝ
  visible : Bool

/-- The `angularDistance` value computed inside source `projectToScreen`:
`acos` of the clamped spherical-law-of-cosines expression, in radians. -/
noncomputable def angularDistance (altitude azimuth : ℝ)
    (viewAngle : SkyPosition) : ℝ :=
  let altRad := altitude * Real.pi / 180
  let azRad := azimuth * Real.pi / 180
  let viewAltRad := viewAngle.altitude * Real.pi / 180
  let viewAzRad := viewAngle.azimuth * Real.pi / 180
  Real.arccos (clampUnit (Real.sin altRad * Real.sin viewAltRad
    + Real.cos altRad * Real.cos viewAltRad * Real.cos (azRad - viewAzRad)))

/-- Source `projectToScreen` (fisheye projection of `SkyViewer`). -/
noncomputable def projectToScreen (altitude azimuth width height : ℝ)
    (viewAngle : SkyPosition) (fov : ℝ) : ScreenPoint :=
  let altRad := altitude * Real.pi / 180
  let azRad := azimuth * Real.pi / 180
  let viewAltRad := viewAngle.altitude * Real.pi / 180
  let viewAzRad := viewAngle.azimuth * Real.pi / 180
  let angDist := angularDistance altitude azimuth viewAngle
  let maxAngle := (fov / 2) * Real.pi / 180
  if maxAngle < angDist then ⟨0, 0, false⟩
  else
    let maxRadius := Real.sqrt (width ^ 2 + height ^ 2) / 2
    let r := (angDist / maxAngle) * maxRadius
    let y := Real.sin (azRad - viewAzRad) * Real.cos altRad
    let x := Real.cos viewAltRad * Real.sin altRad
      - Real.sin viewAltRad * Real.cos altRad * Real.cos (azRad - viewAzRad)
    let bearing := atan2 y x
    ⟨width / 2 + r * Real.sin bearing, height / 2 - r * Real.cos bearing, true⟩

/-! ## `astroMath.ts` sidereal time -/

/-- Source `toJulianDate` (argument: epoch milliseconds). -/
noncomputable def toJulianDate (ms : ℝ) : ℝ := ms / 86400000 + 2440587.5

/-- Source `greenwichSiderealTime`. -/
noncomputable def greenwichSiderealTime (ms : ℝ) : ℝ :=
  normalizeAngle (280.46061837 + 360.98564736629 * (toJulianDate ms - 2451545.0))

/-! ## Instrumented Kepler solver (spec comparison) -/

/-- The Newton loop of `solveKeplerElliptic` instrumented with the
convergence flag: identical arithmetic, but the second component records
whether some step reached `|dE| < 1e-12`. -/
noncomputable def keplerIterFlagged (M e : ℝ) : ℕ → ℝ → ℝ × Bool
  | 0, E => (E, false)
  | n + 1, E =>
    let f := E - e * Real.sin E - M
    let fp := 1 - e * Real.cos E
    let dE := -f / fp
    let E2 := E + dE
    if |dE| < 1e-12 then (E2, true) else keplerIterFlagged M e n E2

/-- Modelled from the spec: the specification requires the Kepler solver to
"return a convergence flag alongside the value"; the source
`solveKeplerElliptic` has no such output, so this definition pairs the same
Newton iteration with the flag the spec asks for, for comparison. -/
noncomputable def solveKeplerEllipticFlagged (M e : ℝ) : ℝ × Bool :=
  keplerIterFlagged M e 12 (if e < 0.8 then M else Real.pi)

/-! ## Lemmas about the primitives -/

theorem jsTrunc_le_self_of_nonneg {x : ℝ} (h : 0 ≤ x) : (jsTrunc x : ℝ) ≤ x := by
  rw [jsTrunc, if_neg (not_lt.mpr h)]
  exact Int.floor_le x

theorem jsRem_bounds {x : ℝ} (y : ℝ) (hy : 0 < y) :
    (0 ≤ x → 0 ≤ jsRem x y ∧ jsRem x y < y) ∧
    (x < 0 → -y < jsRem x y ∧ jsRem x y ≤ 0) := by
  constructor
  · intro hx
    have hq : 0 ≤ x / y := div_nonneg hx hy.le
    rw [jsRem, jsTrunc, if_neg (not_lt.mpr hq)]
    constructor
    · have h1 : (⌊x / y⌋ : ℝ) ≤ x / y := Int.floor_le _
      have := mul_le_mul_of_nonneg_left h1 hy.le
      rw [mul_div_cancel₀ x hy.ne'] at this
      linarith
    · have h2 : x / y < ⌊x / y⌋ + 1 := Int.lt_floor_add_one _
      have := mul_lt_mul_of_pos_left h2 hy
      rw [mul_div_cancel₀ x hy.ne'] at this
      nlinarith
  · intro hx
    have hq : x / y < 0 := div_neg_of_neg_of_pos hx hy
    rw [jsRem, jsTrunc, if_pos hq]
    push_cast
    have hnd : -(x / y) = -x / y := (neg_div _ _).symm
    rw [hnd]
    constructor
    · have h2 : -x / y < ⌊-x / y⌋ + 1 := Int.lt_floor_add_one _
      have := mul_lt_mul_of_pos_left h2 hy
      rw [mul_div_cancel₀ (-x) hy.ne'] at this
      nlinarith
    · have h1 : (⌊-x / y⌋ : ℝ) ≤ -x / y := Int.floor_le _
      have := mul_le_mul_of_nonneg_left h1 hy.le
      rw [mul_div_cancel₀ (-x) hy.ne'] at this
      nlinarith

/-- `normalizeAngle` lands in `[0, 360)`. -/
theorem normalizeAngle_mem (deg : ℝ) :
    0 ≤ normalizeAngle deg ∧ normalizeAngle deg < 360 := by
  rw [normalizeAngle]
  rcases le_or_lt 0 deg with h | h
  · have := (jsRem_bounds (x := deg) 360 (by norm_num)).1 h
    rw [if_neg (not_lt.mpr this.1)]
    exact this
  · have := (jsRem_bounds (x := deg) 360 (by norm_num)).2 h
    rcases lt_or_le (jsRem deg 360) 0 with h2 | h2
    · rw [if_pos h2]
      constructor <;> linarith [this.1, this.2]
    · rw [if_neg (not_lt.mpr h2)]
      constructor <;> linarith [this.2]

/-- `normalizeAngle deg` differs from `deg` by an integer multiple of 360. -/
theorem normalizeAngle_sub (deg : ℝ) :
    ∃ k : ℤ, deg - normalizeAngle deg = 360 * k := by
  rw [normalizeAngle, jsRem]
  rcases lt_or_le (deg - 360 * (jsTrunc (deg / 360) : ℝ)) 0 with h | h
  · rw [if_pos h]
    exact ⟨jsTrunc (deg / 360) - 1, by push_cast; ring⟩
  · rw [if_neg (not_lt.mpr h)]
    exact ⟨jsTrunc (deg / 360), by ring⟩

/-- Uniqueness of the representative in `[0, 360)`: if `y ∈ [0,360)` and
`deg - y` is an integer multiple of 360 then `normalizeAngle deg = y`. -/
theorem normalizeAngle_eq_of (deg y : ℝ) (k : ℤ) (h0 : 0 ≤ y) (h1 : y < 360)
    (hk : deg - y = 360 * k) : normalizeAngle deg = y := by
  obtain ⟨m, hm⟩ := normalizeAngle_sub deg
  obtain ⟨hn0, hn1⟩ := normalizeAngle_mem deg
  have hdiff : normalizeAngle deg - y = 360 * ((k : ℝ) - (m : ℝ)) := by linarith
  have hb : |normalizeAngle deg - y| < 360 := by
    rw [abs_lt]; constructor <;> linarith
  have : |(360 : ℝ) * ((k : ℝ) - (m : ℝ))| < 360 := hdiff ▸ hb
  rw [abs_mul, abs_of_pos (by norm_num : (0:ℝ) < 360)] at this
  have hkm : |(k : ℝ) - (m : ℝ)| < 1 := by linarith
  have : ((k - m : ℤ) : ℝ) = 0 := by
    have hint : |((k - m : ℤ) : ℝ)| < 1 := by push_cast; convert hkm using 2
    by_contra hne
    have : (1 : ℝ) ≤ |((k - m : ℤ) : ℝ)| := by
      rw [← Int.cast_abs]
      exact_mod_cast Int.one_le_abs (by exact_mod_cast fun h => hne (by rw [h]; norm_num))
    linarith
  have : (k : ℝ) = (m : ℝ) := by push_cast at this; linarith
  linarith [hdiff, this]

/-- `normalizeAngle` fixes values already in `[0, 360)`. -/
theorem normalizeAngle_eq_self {deg : ℝ} (h0 : 0 ≤ deg) (h1 : deg < 360) :
    normalizeAngle deg = deg :=
  normalizeAngle_eq_of deg deg 0 h0 h1 (by push_cast; ring)

/-- Shifting an angle by an integer multiple of 360 does not change its
normalisation. -/
theorem normalizeAngle_add_int (deg : ℝ) (k : ℤ) :
    normalizeAngle (deg + 360 * k) = normalizeAngle deg := by
  obtain ⟨m, hm⟩ := normalizeAngle_sub deg
  obtain ⟨h0, h1⟩ := normalizeAngle_mem deg
  exact normalizeAngle_eq_of _ _ (k + m) h0 h1 (by push_cast; linarith)

theorem toRadians_toDegrees (x : ℝ) : toRadians (toDegrees x) = x := by
  rw [toRadians, toDegrees]
  field_simp

theorem toDegrees_toRadians (x : ℝ) : toDegrees (toRadians x) = x := by
  rw [toRadians, toDegrees]
  field_simp

/-- `sin` is unaffected by normalizing the degree argument. -/
theorem sin_toRadians_normalizeAngle (deg : ℝ) :
    Real.sin (toRadians (normalizeAngle deg)) = Real.sin (toRadians deg) := by
  obtain ⟨k, hk⟩ := normalizeAngle_sub deg
  have h : toRadians (normalizeAngle deg)
      = toRadians deg + ((-k : ℤ) : ℝ) * (2 * Real.pi) := by
    rw [toRadians, toRadians]
    have h2 : normalizeAngle deg = deg - 360 * k := by linarith
    rw [h2]
    push_cast
    ring
  rw [h, Real.sin_add_int_mul_two_pi]

/-- `cos` is unaffected by normalizing the degree argument. -/
theorem cos_toRadians_normalizeAngle (deg : ℝ) :
    Real.cos (toRadians (normalizeAngle deg)) = Real.cos (toRadians deg) := by
  obtain ⟨k, hk⟩ := normalizeAngle_sub deg
  have h : toRadians (normalizeAngle deg)
      = toRadians deg + ((-k : ℤ) : ℝ) * (2 * Real.pi) := by
    rw [toRadians, toRadians]
    have h2 : normalizeAngle deg = deg - 360 * k := by linarith
    rw [h2]
    push_cast
    ring
  rw [h, Real.cos_add_int_mul_two_pi]

/-- `atan2` inverts the polar decomposition: for a positive scale factor `c`
and an angle `θ ∈ (-π, π]`, `atan2 (c sin θ) (c cos θ) = θ`. -/
theorem atan2_smul_sin_cos {c θ : ℝ} (hc : 0 < c) (h1 : -Real.pi < θ)
    (h2 : θ ≤ Real.pi) : atan2 (c * Real.sin θ) (c * Real.cos θ) = θ := by
  rw [atan2]
  have h : ((c * Real.cos θ : ℝ) : ℂ) + (c * Real.sin θ : ℝ) * Complex.I
      = (c : ℝ) * (Complex.cos θ + Complex.sin θ * Complex.I) := by
    push_cast
    ring
  rw [h, Complex.arg_real_mul _ hc, Complex.arg_cos_add_sin_mul_I ⟨h1, h2⟩]

theorem atan2_zero_zero : atan2 0 0 = 0 := by
  simp [atan2]

theorem atan2_zero_of_pos {x : ℝ} (hx : 0 < x) : atan2 0 x = 0 := by
  rw [atan2]
  simp only [Complex.ofReal_zero, zero_mul, add_zero]
  exact Complex.arg_ofReal_of_nonneg hx.le

theorem atan2_zero_of_neg {x : ℝ} (hx : x < 0) : atan2 0 x = Real.pi := by
  rw [atan2]
  simp only [Complex.ofReal_zero, zero_mul, add_zero]
  exact Complex.arg_ofReal_of_neg hx

theorem clampUnit_eq_self {x : ℝ} (h1 : -1 ≤ x) (h2 : x ≤ 1) : clampUnit x = x := by
  rw [clampUnit, min_eq_right h2, max_eq_right h1]

/-! ## Lemmas about `clamp01` -/

theorem clamp01_nonneg (v : ℚ) : 0 ≤ clamp01 v := le_max_left 0 _

theorem clamp01_le_one (v : ℚ) : clamp01 v ≤ 1 := by
  rw [clamp01]
  exact max_le (by norm_num) (min_le_left 1 v)

theorem clamp01_eq_self {v : ℚ} (h0 : 0 ≤ v) (h1 : v ≤ 1) : clamp01 v = v := by
  rw [clamp01, min_eq_right h1, max_eq_right h0]

theorem clamp01_eq_zero {v : ℚ} (h : v ≤ 0) : clamp01 v = 0 := by
  rw [clamp01, min_eq_right (le_trans h (by norm_num)), max_eq_left h]

theorem clamp01_mono {a b : ℚ} (h : a ≤ b) : clamp01 a ≤ clamp01 b :=
  max_le_max le_rfl (min_le_min le_rfl h)

/-! ## The Bortle table lookup (claim C4) -/

/-- The lookup never indexes the table for out-of-range classes: any
rounded class below 1 or above 9 yields the `?? 6.0` fallback, while
rounded classes 1..9 return the corresponding table entry (a member of the
9-entry table). -/
theorem getBortle_fallback_or_table (b : ℚ) :
    (b < 1/2 ∨ (19/2 : ℚ) ≤ b → getBortleLimitingMagnitude b = 6) ∧
    (1 ≤ jsRound b → jsRound b ≤ 9 →
      getBortleLimitingMagnitude b ∈ BORTLE_LIMITING_MAG) := by
  constructor
  · rintro (h | h)
    · have hn : jsRound b < 1 := by
        rw [jsRound]
        exact Int.floor_lt.mpr (by push_cast; linarith)
      rw [getBortleLimitingMagnitude, jsIndex, if_pos (by omega)]
      norm_num [Option.getD_none]
    · have hn : 10 ≤ jsRound b := by
        rw [jsRound]
        exact Int.le_floor.mpr (by push_cast; linarith)
      rw [getBortleLimitingMagnitude, jsIndex, if_neg (by omega)]
      have hlen : 9 ≤ (jsRound b - 1).toNat := by omega
      rw [List.get?_eq_none.mpr (by simpa [BORTLE_LIMITING_MAG] using hlen)]
      norm_num [Option.getD_none]
  · intro h1 h9
    rw [getBortleLimitingMagnitude, jsIndex, if_neg (by omega)]
    rcases hg : BORTLE_LIMITING_MAG.get? (jsRound b - 1).toNat with _ | x
    · exfalso
      have := List.get?_eq_none.mp hg
      simp only [BORTLE_LIMITING_MAG, List.length] at this
      omega
    · simpa using List.get?_mem hg

/-- Witness for the corrected Bortle-lookup claim: Bortle class 3 is in
range and returns a table entry. -/
theorem getBortle_fallback_or_table_witness :
    (1 ≤ jsRound 3 ∧ jsRound 3 ≤ 9) ∧
      getBortleLimitingMagnitude 3 ∈ BORTLE_LIMITING_MAG :=
  ⟨⟨by norm_num [jsRound], by norm_num [jsRound]⟩,
    (getBortle_fallback_or_table 3).2 (by norm_num [jsRound])
      (by norm_num [jsRound])⟩

/-- Counterexample to the claimed clamping: the out-of-range input 0
(below Bortle 1) returns the fallback 6.0, not the claimed 8.0, and 6.0 is
not one of the nine table values. -/
theorem getBortle_no_clamp_counterexample :
    getBortleLimitingMagnitude 0 = 6 ∧ (6 : ℚ) ≠ 8 ∧
      (6 : ℚ) ∉ BORTLE_LIMITING_MAG := by
  have h0 : jsRound (0 : ℚ) = 0 := by
    rw [jsRound]
    norm_num
  refine ⟨?_, by norm_num, by norm_num [BORTLE_LIMITING_MAG]⟩
  rw [getBortleLimitingMagnitude, h0, jsIndex, if_pos (by norm_num)]
  norm_num [Option.getD_none]

/-! ## Moon wash factor (claims C5 and C10) -/

/-- Full characterisation of `moonWashFactor` on finite inputs: it is the
clamped product formula, always in `[0,1]`, vanishes for new moon, and —
contrary to the original claim — equals `0.35 · illumination` (not 0) when
the moon is at or below −2° altitude; for illumination already in `[0,1]`
it is exactly `illumination * (0.35 + 0.65 * clamp((alt+2)/22, 0, 1))`. -/
theorem moonWashFactor_characterisation (alt illum : ℚ) :
    moonWashFactor (some alt) (some illum)
      = clamp01 (clamp01 illum * (0.35 + 0.65 * clamp01 ((alt + 2) / 22))) ∧
    0 ≤ moonWashFactor (some alt) (some illum) ∧
    moonWashFactor (some alt) (some illum) ≤ 1 ∧
    (illum ≤ 0 → moonWashFactor (some alt) (some illum) = 0) ∧
    (alt ≤ -2 → moonWashFactor (some alt) (some illum)
      = clamp01 illum * (7/20)) ∧
    (0 ≤ illum → illum ≤ 1 → moonWashFactor (some alt) (some illum)
      = illum * (0.35 + 0.65 * clamp01 ((alt + 2) / 22))) := by
  have hc0 := clamp01_nonneg ((alt + 2) / 22)
  have hc1 := clamp01_le_one ((alt + 2) / 22)
  have hi0 := clamp01_nonneg illum
  have hi1 := clamp01_le_one illum
  have hfac0 : (0 : ℚ) ≤ 0.35 + 0.65 * clamp01 ((alt + 2) / 22) := by linarith
  have hfac1 : 0.35 + 0.65 * clamp01 ((alt + 2) / 22) ≤ 1 := by linarith
  have hprod0 : (0 : ℚ) ≤ clamp01 illum * (0.35 + 0.65 * clamp01 ((alt + 2) / 22)) :=
    mul_nonneg hi0 hfac0
  have hprod1 : clamp01 illum * (0.35 + 0.65 * clamp01 ((alt + 2) / 22)) ≤ 1 := by
    calc clamp01 illum * (0.35 + 0.65 * clamp01 ((alt + 2) / 22))
        ≤ 1 * 1 := mul_le_mul hi1 hfac1 hfac0 (by norm_num)
      _ = 1 := one_mul 1
  have hval : moonWashFactor (some alt) (some illum)
      = clamp01 illum * (0.35 + 0.65 * clamp01 ((alt + 2) / 22)) := by
    rw [moonWashFactor]
    exact clamp01_eq_self hprod0 hprod1
  refine ⟨by rw [moonWashFactor], ?_, ?_, ?_, ?_, ?_⟩
  · rw [hval]; exact hprod0
  · rw [hval]; exact hprod1
  · intro h
    rw [hval, clamp01_eq_zero h, zero_mul]
  · intro h
    rw [hval, clamp01_eq_zero (v := (alt + 2) / 22) (by linarith)]
    norm_num
  · intro h0 h1
    rw [hval, clamp01_eq_self h0 h1]

/-- Witness for the corrected moon-wash claim at a concrete low moon:
altitude −10°, half illumination gives `0.35 · 0.5 = 0.175`, not 0. -/
theorem moonWashFactor_characterisation_witness :
    ((-10 : ℚ) ≤ -2 ∧ moonWashFactor (some (-10)) (some (1/2))
      = clamp01 (1/2) * (7/20)) ∧
      moonWashFactor (some (-10)) (some (1/2)) = 7/40 :=
  ⟨⟨by norm_num,
    (moonWashFactor_characterisation (-10) (1/2)).2.2.2.2.1 (by norm_num)⟩,
    by norm_num [moonWashFactor, clamp01, min_def, max_def]⟩

/-- Counterexample to the original claim: with the moon well below the
horizon (−30°) and full illumination, `moonWashFactor` returns 0.35, not
the claimed 0. -/
theorem moonWashFactor_below_horizon_counterexample :
    moonWashFactor (some (-30)) (some 1) = 7/20 ∧ (7/20 : ℚ) ≠ 0 :=
  ⟨by norm_num [moonWashFactor, clamp01, min_def, max_def], by norm_num⟩

/-- Missing or non-finite moon inputs (modelled by `none`, covering
`undefined`, `NaN` and `±∞`, which all fail `Number.isFinite`) make
`moonWashFactor` return exactly 0. -/
theorem moonWashFactor_nonfinite_inputs_zero (a b : Option ℚ)
    (h : a = none ∨ b = none) : moonWashFactor a b = 0 := by
  rcases h with h | h
  · subst h; cases b <;> rfl
  · subst h; cases a <;> rfl

/-- Witness: a missing altitude with a present illumination gives 0. -/
theorem moonWashFactor_nonfinite_inputs_zero_witness :
    moonWashFactor none (some (1/2)) = 0 :=
  moonWashFactor_nonfinite_inputs_zero none (some (1/2)) (Or.inl rfl)

/-! ## Monotonicity of the effective limiting magnitude (claim C6) -/

theorem getBortle_ge_base (b : ℚ) : 5/2 ≤ getBortleLimitingMagnitude b := by
  rw [getBortleLimitingMagnitude, jsIndex]
  rcases lt_or_le (jsRound b - 1) 0 with h | h
  · rw [if_pos h]; norm_num
  · rw [if_neg (not_lt.mpr h)]
    rcases hg : BORTLE_LIMITING_MAG.get? (jsRound b - 1).toNat with _ | x
    · norm_num
    · have hx : x ∈ BORTLE_LIMITING_MAG := List.get?_mem hg
      have : ∀ y ∈ BORTLE_LIMITING_MAG, (5/2 : ℚ) ≤ y := by
        norm_num [BORTLE_LIMITING_MAG, List.forall_mem_cons]
      simpa using this x hx

theorem twilightFactor_antitone {s1 s2 : ℚ} (h : s2 ≤ s1) :
    twilightFactor s1 ≤ twilightFactor s2 := by
  rw [twilightFactor, twilightFactor]
  exact clamp01_mono (by linarith)

/-- The effective naked-eye limiting magnitude never decreases when the
sun sinks: with the Bortle class and moon inputs fixed, a higher sun
altitude gives a smaller-or-equal limiting magnitude. -/
theorem effectiveLimitingMagnitude_antitone_in_sunAlt
    (b s1 s2 : ℚ) (mAlt mIll : Option ℚ) (h : s2 ≤ s1) :
    effectiveNakedEyeLimitingMagnitude ⟨b, s1, mAlt, mIll⟩
      ≤ effectiveNakedEyeLimitingMagnitude ⟨b, s2, mAlt, mIll⟩ := by
  simp only [effectiveNakedEyeLimitingMagnitude, lerp]
  have hbase := getBortle_ge_base b
  have htw := twilightFactor_antitone h
  have hmul : (getBortleLimitingMagnitude b - 2.5) * twilightFactor s1
      ≤ (getBortleLimitingMagnitude b - 2.5) * twilightFactor s2 :=
    mul_le_mul_of_nonneg_left htw (by linarith)
  exact max_le_max le_rfl (min_le_min le_rfl (by linarith))

/-- Witness: Bortle 4 sky, sun at 0° versus −20°, no moon data. -/
theorem effectiveLimitingMagnitude_antitone_witness :
    ((-20 : ℚ) ≤ 0) ∧
    effectiveNakedEyeLimitingMagnitude ⟨4, 0, none, none⟩
      ≤ effectiveNakedEyeLimitingMagnitude ⟨4, -20, none, none⟩ :=
  ⟨by norm_num,
    effectiveLimitingMagnitude_antitone_in_sunAlt 4 0 (-20) none none
      (by norm_num)⟩

/-! ## Comet orbit rejection (claim C2) -/

/-- Elements with eccentricity ≥ 1 (parabolic or hyperbolic) or
non-positive perihelion distance never produce a heliocentric position,
at any evaluation instant. -/
theorem cometHeliocentric_rejects_invalid (elements : CometElements) (time : ℝ)
    (h : 1 ≤ elements.eccentricity ∨ elements.perihelionDistanceAu ≤ 0) :
    cometHeliocentricEclipticJ2000 elements time = none := by
  rw [cometHeliocentricEclipticJ2000]
  rcases le_or_lt elements.perihelionDistanceAu 0 with hq | hq
  · rw [if_pos (Or.inl (not_lt.mpr hq))]
  · have he : 1 ≤ elements.eccentricity := by
      rcases h with h | h
      · exact h
      · linarith
    rw [if_neg (by push_neg; exact ⟨hq, by linarith⟩)]
    rcases elements.perihelionTimeJsMs? with _ | tp
    · rfl
    · simp only []
      rw [if_pos he]

/-- Witness: a parabolic orbit (`e = 1`, `q = 1` AU) is rejected at the
epoch instant. -/
theorem cometHeliocentric_rejects_invalid_witness :
    ((1 : ℝ) ≤ 1 ∨ (1 : ℝ) ≤ 0) ∧
    cometHeliocentricEclipticJ2000 ⟨some 0, 1, 1, 0, 0, 0⟩ 0 = none :=
  ⟨Or.inl le_rfl,
    cometHeliocentric_rejects_invalid ⟨some 0, 1, 1, 0, 0, 0⟩ 0 (Or.inl le_rfl)⟩

/-! ## Greenwich sidereal time (claim C8) -/

/-- `greenwichSiderealTime` always lands in `[0, 360)` and differs from the
un-reduced J2000 polynomial by an exact integer multiple of 360 — also for
instants before J2000.0, where the polynomial is negative. -/
theorem greenwichSiderealTime_reduction (ms : ℝ) :
    0 ≤ greenwichSiderealTime ms ∧ greenwichSiderealTime ms < 360 ∧
    ∃ k : ℤ, (280.46061837 + 360.98564736629 * (toJulianDate ms - 2451545.0))
      - greenwichSiderealTime ms = 360 * k := by
  rw [greenwichSiderealTime]
  exact ⟨(normalizeAngle_mem _).1, (normalizeAngle_mem _).2, normalizeAngle_sub _⟩

/-! ## The Kepler solver carries no convergence flag (claim C3) -/

theorem keplerIter_eq_flagged (M e : ℝ) :
    ∀ (n : ℕ) (E : ℝ), keplerIter M e n E = (keplerIterFlagged M e n E).1 := by
  intro n
  induction n with
  | zero => intro E; rfl
  | succ n ih =>
    intro E
    rw [keplerIter, keplerIterFlagged]
    by_cases hc : |-(E - e * Real.sin E - M) / (1 - e * Real.cos E)| < 1e-12
    · simp only [if_pos hc]
    · simp only [if_neg hc]
      exact ih _

/-- The source solver computes exactly the value component of the
flag-instrumented iteration and discards the convergence flag: its result
carries no convergence information, for every mean anomaly and
eccentricity. -/
theorem solveKeplerElliptic_drops_flag (M e : ℝ) :
    solveKeplerElliptic M e = (solveKeplerEllipticFlagged M e).1 := by
  rw [solveKeplerElliptic, solveKeplerEllipticFlagged]
  exact keplerIter_eq_flagged M e 12 _

/-! ## Spherical-trigonometry tool kit for the round trip (claim C1) -/

/-- Algebraic key identity: the squared azimuth numerator plus the squared
altitude sine reduce to `sin² δ + cos² δ cos² h`. -/
theorem sq_key (phi delta h : ℝ) :
    (Real.sin delta * Real.cos phi - Real.sin phi * Real.cos delta * Real.cos h) ^ 2
      + (Real.sin delta * Real.sin phi + Real.cos delta * Real.cos phi * Real.cos h) ^ 2
    = Real.sin delta ^ 2 + Real.cos delta ^ 2 * Real.cos h ^ 2 := by
  linear_combination (Real.sin delta ^ 2 + Real.cos delta ^ 2 * Real.cos h ^ 2)
    * Real.sin_sq_add_cos_sq phi

/-- The altitude sine always lies in `[-1, 1]`. -/
theorem sinAlt_bounds (phi delta h : ℝ) :
    -1 ≤ Real.sin delta * Real.sin phi + Real.cos delta * Real.cos phi * Real.cos h ∧
    Real.sin delta * Real.sin phi + Real.cos delta * Real.cos phi * Real.cos h ≤ 1 := by
  have hk := sq_key phi delta h
  have h1 := Real.sin_sq_add_cos_sq delta
  have h2 := Real.sin_sq_add_cos_sq h
  have hu := sq_nonneg
    (Real.sin delta * Real.cos phi - Real.sin phi * Real.cos delta * Real.cos h)
  have hsh := sq_nonneg (Real.sin h)
  constructor
  · nlinarith [sq_nonneg (Real.sin delta * Real.sin phi
      + Real.cos delta * Real.cos phi * Real.cos h + 1)]
  · nlinarith [sq_nonneg (Real.sin delta * Real.sin phi
      + Real.cos delta * Real.cos phi * Real.cos h - 1)]

/-- Degrees in `(-90, 90)` map to radians in `(-π/2, π/2)`. -/
theorem toRadians_mem_Ioo {x : ℝ} (h1 : -90 < x) (h2 : x < 90) :
    -(Real.pi / 2) < toRadians x ∧ toRadians x < Real.pi / 2 := by
  rw [toRadians]
  have hp : (0:ℝ) < Real.pi / 180 := by positivity
  constructor
  · calc -(Real.pi / 2) = -90 * (Real.pi / 180) := by ring
      _ < x * (Real.pi / 180) := mul_lt_mul_of_pos_right h1 hp
  · calc x * (Real.pi / 180) < 90 * (Real.pi / 180) := mul_lt_mul_of_pos_right h2 hp
    _ = Real.pi / 2 := by ring

/-- Degrees in `[0, 360)` map to radians in `[0, 2π)`. -/
theorem toRadians_mem_Ico {x : ℝ} (h1 : 0 ≤ x) (h2 : x < 360) :
    0 ≤ toRadians x ∧ toRadians x < 2 * Real.pi := by
  rw [toRadians]
  have hp : (0:ℝ) < Real.pi / 180 := by positivity
  constructor
  · positivity
  · calc x * (Real.pi / 180) < 360 * (Real.pi / 180) := mul_lt_mul_of_pos_right h2 hp
    _ = 2 * Real.pi := by ring

/-- Recovering a degree angle in `[0, 360)` from scaled sine and cosine of
its radian value through `atan2`. -/
theorem atan2_recovers_deg {H : ℝ} (h0 : 0 ≤ H) (h1 : H < 360) {c : ℝ}
    (hc : 0 < c) :
    normalizeAngle (toDegrees (atan2 (c * Real.sin (toRadians H))
      (c * Real.cos (toRadians H)))) = H := by
  obtain ⟨hr0, hr2⟩ := toRadians_mem_Ico h0 h1
  have hpi := Real.pi_pos
  rcases le_or_lt (toRadians H) Real.pi with hle | hgt
  · rw [atan2_smul_sin_cos hc (by linarith) hle, toDegrees_toRadians,
      normalizeAngle_eq_self h0 h1]
  · have hs : Real.sin (toRadians H) = Real.sin (toRadians H - 2 * Real.pi) :=
      (Real.sin_sub_two_pi _).symm
    have hcs : Real.cos (toRadians H) = Real.cos (toRadians H - 2 * Real.pi) :=
      (Real.cos_sub_two_pi _).symm
    rw [hs, hcs, atan2_smul_sin_cos hc (by linarith) (by linarith)]
    have hdeg : toDegrees (toRadians H - 2 * Real.pi) = H + 360 * ((-1 : ℤ) : ℝ) := by
      rw [toDegrees, toRadians]
      push_cast
      field_simp
      ring
    rw [hdeg]
    exact_mod_cast (normalizeAngle_add_int H (-1)).trans (normalizeAngle_eq_self h0 h1)

/-- Unwinding `normalizeAngle (lst - normalizeAngle (lst - ra))` back to a
right ascension already in `[0, 360)`. -/
theorem normalizeAngle_lst_cancel {lst ra : ℝ} (h0 : 0 ≤ ra) (h1 : ra < 360) :
    normalizeAngle (lst - normalizeAngle (lst - ra)) = ra := by
  obtain ⟨k, hk⟩ := normalizeAngle_sub (lst - ra)
  have h2 : lst - normalizeAngle (lst - ra) = ra + 360 * k := by linarith
  rw [h2, normalizeAngle_add_int, normalizeAngle_eq_self h0 h1]

/-- Reflecting a degree angle as `360 - A` negates the sine of its radian
value. -/
theorem sin_toRadians_360_sub (A : ℝ) :
    Real.sin (toRadians (360 - A)) = -Real.sin (toRadians A) := by
  have h : toRadians (360 - A) = 2 * Real.pi - toRadians A := by
    rw [toRadians, toRadians]
    ring
  rw [h, Real.sin_two_pi_sub]

theorem cos_toRadians_360_sub (A : ℝ) :
    Real.cos (toRadians (360 - A)) = Real.cos (toRadians A) := by
  have h : toRadians (360 - A) = 2 * Real.pi - toRadians A := by
    rw [toRadians, toRadians]
    ring
  rw [h, Real.cos_two_pi_sub]

theorem sq_eq_of_nonneg {a b : ℝ} (ha : 0 ≤ a) (hb : 0 ≤ b) (h : a ^ 2 = b ^ 2) :
    a = b := by
  rw [← Real.sqrt_sq ha, ← Real.sqrt_sq hb, h]


set_option maxHeartbeats 4000000 in
theorem roundTrip_exact (ra dec lat lon : ℝ) (dt : DateUTC)
    (hlat1 : -90 < lat) (hlat2 : lat < 90)
    (hdec1 : -90 < dec) (hdec2 : dec < 90)
    (hra0 : 0 ≤ ra) (hra1 : ra < 360) :
    horizontalToEquatorial (equatorialToHorizontal ⟨ra, dec⟩ ⟨lat, lon⟩ dt)
      ⟨lat, lon⟩ dt = ⟨ra, dec⟩ := by
  simp only [equatorialToHorizontal, horizontalToEquatorial]
  simp only [toRadians_toDegrees]
  generalize calculateLST dt lon = lst
  set H := normalizeAngle (lst - ra) with hHdef
  set phi := toRadians lat with hphidef
  set delta := toRadians dec with hdeltadef
  set s := Real.sin delta * Real.sin phi
    + Real.cos delta * Real.cos phi * Real.cos (toRadians H) with hsdef
  have hpi := Real.pi_pos
  obtain ⟨hphi1, hphi2⟩ := toRadians_mem_Ioo hlat1 hlat2
  obtain ⟨hdel1, hdel2⟩ := toRadians_mem_Ioo hdec1 hdec2
  rw [← hphidef] at hphi1 hphi2
  rw [← hdeltadef] at hdel1 hdel2
  have hcosphi : 0 < Real.cos phi := Real.cos_pos_of_mem_Ioo ⟨hphi1, hphi2⟩
  have hcosdelta : 0 < Real.cos delta := Real.cos_pos_of_mem_Ioo ⟨hdel1, hdel2⟩
  obtain ⟨hH0, hH1⟩ := normalizeAngle_mem (lst - ra)
  rw [← hHdef] at hH0 hH1
  have hsb := sinAlt_bounds phi delta (toRadians H)
  rw [← hsdef] at hsb
  have hpyphi := Real.sin_sq_add_cos_sq phi
  have hpydelta := Real.sin_sq_add_cos_sq delta
  have hpyH := Real.sin_sq_add_cos_sq (toRadians H)
  have hkey := sq_key phi delta (toRadians H)
  rw [← hsdef] at hkey
  have hg : (0:ℝ) < max 1e-9 (Real.cos delta) :=
    lt_of_lt_of_le (by norm_num) (le_max_left _ _)
  rcases eq_or_lt_of_le hsb.2 with hs1 | hslt1
  · -- s = 1 : object at the zenith
    have hs1' := hs1
    rw [hsdef] at hs1'
    have hch1 : 1 ≤ Real.cos (toRadians H) := by
      nlinarith [hs1', Real.cos_sub delta phi, Real.cos_le_one (delta - phi),
        mul_pos hcosdelta hcosphi]
    have hch : Real.cos (toRadians H) = 1 := le_antisymm (Real.cos_le_one _) hch1
    have hpyH2 := hpyH
    rw [hch] at hpyH2
    have hsq : Real.sin (toRadians H) ^ 2 = 0 := by nlinarith [hpyH2]
    have hsh : Real.sin (toRadians H) = 0 := sq_eq_zero_iff.mp hsq
    obtain ⟨hr0, hr1⟩ := toRadians_mem_Ico hH0 hH1
    obtain ⟨n, hn⟩ := Real.sin_eq_zero_iff.mp hsh
    rw [← hn] at hr0 hr1
    have hn0 : 0 ≤ n := by
      have hnr : (0:ℝ) ≤ (n:ℝ) := by nlinarith [hpi]
      exact_mod_cast hnr
    have hn2 : n < 2 := by
      have hn2r : (n:ℝ) < 2 := by nlinarith [hpi]
      exact_mod_cast hn2r
    have hHR0 : toRadians H = 0 := by
      interval_cases n
      · rw [← hn]
        norm_num
      · exfalso
        rw [← hn] at hch
        push_cast at hch
        rw [one_mul, Real.cos_pi] at hch
        norm_num at hch
    have hHzero : H = 0 := by
      rw [toRadians] at hHR0
      rcases mul_eq_zero.mp hHR0 with h | h
      · exact h
      · exfalso
        rcases div_eq_zero_iff.mp h with h2 | h2
        · exact Real.pi_ne_zero h2
        · norm_num at h2
    have hcosdp : Real.cos (delta - phi) = 1 := by
      rw [Real.cos_sub]
      rw [hch] at hs1'
      linarith
    have hdp : delta = phi := by
      have h1 : delta - phi = 0 :=
        (Real.cos_eq_one_iff_of_lt_of_lt (by linarith) (by linarith)).mp hcosdp
      linarith
    have hphid : phi = toRadians dec := hdp.symm.trans hdeltadef
    have hgphi : (0:ℝ) < max 1e-9 (Real.cos phi) :=
      lt_of_lt_of_le (by norm_num) (le_max_left _ _)
    have hra : normalizeAngle lst = ra := by
      obtain ⟨k, hk⟩ := normalizeAngle_sub (lst - ra)
      rw [← hHdef, hHzero] at hk
      have h2 : lst = ra + 360 * k := by linarith
      rw [h2, normalizeAngle_add_int, normalizeAngle_eq_self hra0 hra1]
    rw [hs1, Real.arcsin_one, hsh, if_neg (lt_irrefl 0)]
    rw [sin_toRadians_normalizeAngle, cos_toRadians_normalizeAngle,
      toRadians_toDegrees]
    simp only [Real.cos_pi_div_two, Real.sin_pi_div_two, mul_one, mul_zero,
      zero_mul, div_zero, one_mul, add_zero, neg_zero, zero_div]
    rw [clampUnit_eq_self (Real.neg_one_le_sin phi) (Real.sin_le_one phi),
      Real.arcsin_sin (by linarith) (by linarith)]
    have hB : (1 - Real.sin phi * Real.sin phi)
        / (Real.cos phi * max 1e-9 (Real.cos phi))
        = Real.cos phi / max 1e-9 (Real.cos phi) := by
      have h1 : 1 - Real.sin phi * Real.sin phi
          = Real.cos phi * Real.cos phi := by
        linear_combination -hpyphi
      rw [h1, mul_div_mul_left _ _ (ne_of_gt hcosphi)]
    rw [hB, atan2_zero_of_pos (div_pos hcosphi hgphi)]
    have h0 : toDegrees 0 = 0 := by
      rw [toDegrees]
      ring
    rw [h0, normalizeAngle_eq_self le_rfl (by norm_num), sub_zero, hra,
      hphid, toDegrees_toRadians]
  rcases eq_or_lt_of_le hsb.1 with hsm1 | hsgtm1
  · -- s = -1 : object at the nadir
    have hs1' := hsm1.symm
    rw [hsdef] at hs1'
    have hch1 : Real.cos (toRadians H) ≤ -1 := by
      nlinarith [hs1', Real.cos_add delta phi, Real.cos_le_one (delta + phi),
        mul_pos hcosdelta hcosphi]
    have hch : Real.cos (toRadians H) = -1 :=
      le_antisymm hch1 (Real.neg_one_le_cos _)
    have hpyH2 := hpyH
    rw [hch] at hpyH2
    have hsq : Real.sin (toRadians H) ^ 2 = 0 := by nlinarith [hpyH2]
    have hsh : Real.sin (toRadians H) = 0 := sq_eq_zero_iff.mp hsq
    obtain ⟨hr0, hr1⟩ := toRadians_mem_Ico hH0 hH1
    obtain ⟨n, hn⟩ := Real.sin_eq_zero_iff.mp hsh
    rw [← hn] at hr0 hr1
    have hn0 : 0 ≤ n := by
      have hnr : (0:ℝ) ≤ (n:ℝ) := by nlinarith [hpi]
      exact_mod_cast hnr
    have hn2 : n < 2 := by
      have hn2r : (n:ℝ) < 2 := by nlinarith [hpi]
      exact_mod_cast hn2r
    have hHRpi : toRadians H = Real.pi := by
      interval_cases n
      · exfalso
        rw [← hn] at hch
        push_cast at hch
        rw [zero_mul, Real.cos_zero] at hch
        norm_num at hch
      · rw [← hn]
        push_cast
        ring
    have hH180 : H = 180 := by
      rw [toRadians] at hHRpi
      have h2 : H * (Real.pi / 180) = 180 * (Real.pi / 180) := by
        rw [hHRpi]
        field_simp
      exact mul_right_cancel₀ (by positivity) h2
    have hcosdp : Real.cos (delta + phi) = 1 := by
      rw [Real.cos_add]
      rw [hch] at hs1'
      linarith
    have hdp : delta = -phi := by
      have h1 : delta + phi = 0 :=
        (Real.cos_eq_one_iff_of_lt_of_lt (by linarith) (by linarith)).mp hcosdp
      linarith
    have hphid : -phi = toRadians dec := by
      rw [← hdp]
    have hgphi : (0:ℝ) < max 1e-9 (Real.cos phi) :=
      lt_of_lt_of_le (by norm_num) (le_max_left _ _)
    have hra : normalizeAngle (lst - 180) = ra := by
      obtain ⟨k, hk⟩ := normalizeAngle_sub (lst - ra)
      rw [← hHdef, hH180] at hk
      have h2 : lst - 180 = ra + 360 * k := by linarith
      rw [h2, normalizeAngle_add_int, normalizeAngle_eq_self hra0 hra1]
    rw [← hsm1, Real.arcsin_neg_one, hsh, if_neg (lt_irrefl 0)]
    rw [sin_toRadians_normalizeAngle, cos_toRadians_normalizeAngle,
      toRadians_toDegrees]
    simp only [Real.sin_neg, Real.cos_neg, Real.cos_pi_div_two,
      Real.sin_pi_div_two, mul_one, mul_zero, zero_mul, div_zero, one_mul,
      add_zero, neg_zero, zero_div, neg_mul, neg_neg]
    rw [clampUnit_eq_self (neg_le_neg (Real.sin_le_one phi))
      (by linarith [Real.neg_one_le_sin phi]),
      ← Real.sin_neg, Real.arcsin_sin (by linarith) (by linarith)]
    simp only [Real.sin_neg, Real.cos_neg]
    have hB : (-1 - Real.sin phi * -Real.sin phi)
        / (Real.cos phi * max 1e-9 (Real.cos phi))
        = -(Real.cos phi / max 1e-9 (Real.cos phi)) := by
      have h1 : -1 - Real.sin phi * -Real.sin phi
          = Real.cos phi * -Real.cos phi := by
        linear_combination hpyphi
      rw [h1, mul_div_mul_left _ _ (ne_of_gt hcosphi), neg_div]
    rw [hB, atan2_zero_of_neg (neg_lt_zero.mpr (div_pos hcosphi hgphi))]
    have h180 : toDegrees Real.pi = 180 := by
      rw [toDegrees]
      field_simp
    rw [h180, @normalizeAngle_eq_self 180 (by norm_num) (by norm_num), hra]
    have hdec' : toDegrees (-phi) = dec := by
      rw [hphid, toDegrees_toRadians]
    rw [hdec']
  -- main branch : |s| < 1
  rw [Real.sin_arcsin hsb.1 hsb.2, Real.cos_arcsin]
  set ca := Real.sqrt (1 - s ^ 2) with hcadef
  have hca : 0 < ca := by
    rw [hcadef]
    exact Real.sqrt_pos.mpr (by nlinarith)
  have hca2 : ca ^ 2 = 1 - s ^ 2 := by
    rw [hcadef]
    exact Real.sq_sqrt (by nlinarith)
  set u := Real.sin delta * Real.cos phi
    - Real.sin phi * Real.cos delta * Real.cos (toRadians H) with hudef
  have hnum : Real.sin delta - Real.sin phi * s = Real.cos phi * u := by
    rw [hsdef, hudef]
    linear_combination (-Real.sin delta) * hpyphi
  have hca_sub_u : ca ^ 2 - u ^ 2
      = (Real.cos delta * Real.sin (toRadians H)) ^ 2 := by
    linear_combination hca2 - hkey - hpydelta - (Real.cos delta) ^ 2 * hpyH
  have hu2 : u ^ 2 ≤ ca ^ 2 := by
    nlinarith [sq_nonneg (Real.cos delta * Real.sin (toRadians H))]
  have huca1 : u / ca ≤ 1 := by
    rw [div_le_one hca]
    nlinarith [sq_nonneg (u - ca)]
  have huca0 : -1 ≤ u / ca := by
    rw [le_div_iff hca]
    nlinarith [sq_nonneg (u + ca)]
  rw [hnum, mul_div_mul_left _ _ (ne_of_gt hcosphi),
    clampUnit_eq_self huca0 huca1]
  have hcosth : Real.cos (Real.arccos (u / ca)) = u / ca :=
    Real.cos_arccos huca0 huca1
  have h15 : (0:ℝ) ≤ 1 - (u / ca) ^ 2 := by nlinarith [huca0, huca1]
  have hdiv : (u / ca) ^ 2 * ca ^ 2 = u ^ 2 := by field_simp
  have h2 : (Real.sin (Real.arccos (u / ca)) * ca) ^ 2
      = (Real.cos delta * |Real.sin (toRadians H)|) ^ 2 := by
    rw [Real.sin_arccos, mul_pow, Real.sq_sqrt h15, mul_pow, sq_abs]
    calc (1 - (u / ca) ^ 2) * ca ^ 2
        = ca ^ 2 - (u / ca) ^ 2 * ca ^ 2 := by ring
      _ = ca ^ 2 - u ^ 2 := by rw [hdiv]
      _ = Real.cos delta ^ 2 * Real.sin (toRadians H) ^ 2 := by
          linear_combination hca_sub_u
  have hsinth : Real.sin (Real.arccos (u / ca))
      = Real.cos delta * |Real.sin (toRadians H)| / ca := by
    have h3 : Real.sin (Real.arccos (u / ca)) * ca
        = Real.cos delta * |Real.sin (toRadians H)| :=
      sq_eq_of_nonneg
        (mul_nonneg (by rw [Real.sin_arccos]; exact Real.sqrt_nonneg _) hca.le)
        (mul_nonneg hcosdelta.le (abs_nonneg _)) h2
    rw [eq_div_iff (ne_of_gt hca)]
    exact h3
  by_cases hflip : 0 < Real.sin (toRadians H)
  · simp only [if_pos hflip]
    rw [sin_toRadians_normalizeAngle, cos_toRadians_normalizeAngle,
      sin_toRadians_360_sub, cos_toRadians_360_sub, toRadians_toDegrees,
      hcosth, hsinth, abs_of_pos hflip]
    have hSD : s * Real.sin phi + ca * Real.cos phi * (u / ca)
        = Real.sin delta := by
      have hc : ca * Real.cos phi * (u / ca) = Real.cos phi * u := by
        field_simp
        ring
      rw [hc, hsdef, hudef]
      linear_combination Real.sin delta * hpyphi
    rw [hSD, clampUnit_eq_self (Real.neg_one_le_sin delta) (Real.sin_le_one delta),
      Real.arcsin_sin (by linarith) (by linarith)]
    have hsinHarg : -(-(Real.cos delta * Real.sin (toRadians H) / ca) * ca)
        / max 1e-9 (Real.cos delta)
        = (Real.cos delta / max 1e-9 (Real.cos delta)) * Real.sin (toRadians H) := by
      field_simp
    have hcosHarg : (s - Real.sin phi * Real.sin delta)
        / (Real.cos phi * max 1e-9 (Real.cos delta))
        = (Real.cos delta / max 1e-9 (Real.cos delta)) * Real.cos (toRadians H) := by
      rw [hsdef]
      field_simp
      ring
    rw [hsinHarg, hcosHarg,
      atan2_recovers_deg hH0 hH1 (div_pos hcosdelta hg),
      hHdef, normalizeAngle_lst_cancel hra0 hra1,
      hdeltadef, toDegrees_toRadians]
  · simp only [if_neg hflip]
    rw [sin_toRadians_normalizeAngle, cos_toRadians_normalizeAngle,
      toRadians_toDegrees, hcosth, hsinth,
      abs_of_nonpos (not_lt.mp hflip)]
    have hSD : s * Real.sin phi + ca * Real.cos phi * (u / ca)
        = Real.sin delta := by
      have hc : ca * Real.cos phi * (u / ca) = Real.cos phi * u := by
        field_simp
        ring
      rw [hc, hsdef, hudef]
      linear_combination Real.sin delta * hpyphi
    rw [hSD, clampUnit_eq_self (Real.neg_one_le_sin delta) (Real.sin_le_one delta),
      Real.arcsin_sin (by linarith) (by linarith)]
    have hsinHarg : -(Real.cos delta * -Real.sin (toRadians H) / ca * ca)
        / max 1e-9 (Real.cos delta)
        = (Real.cos delta / max 1e-9 (Real.cos delta)) * Real.sin (toRadians H) := by
      field_simp
    have hcosHarg : (s - Real.sin phi * Real.sin delta)
        / (Real.cos phi * max 1e-9 (Real.cos delta))
        = (Real.cos delta / max 1e-9 (Real.cos delta)) * Real.cos (toRadians H) := by
      rw [hsdef]
      field_simp
      ring
    rw [hsinHarg, hcosHarg,
      atan2_recovers_deg hH0 hH1 (div_pos hcosdelta hg),
      hHdef, normalizeAngle_lst_cancel hra0 hra1,
      hdeltadef, toDegrees_toRadians]



/-! ## Fisheye projection gating (claims C7 and C9) -/

theorem angularDistance_nonneg (altitude azimuth : ℝ) (viewAngle : SkyPosition) :
    0 ≤ angularDistance altitude azimuth viewAngle :=
  Real.arccos_nonneg _

/-- Targets farther than half the field of view from the view centre are
reported not visible, and the view centre itself projects exactly to the
canvas centre and is visible. -/
theorem projectToScreen_fov_gate (altitude azimuth width height : ℝ)
    (viewAngle : SkyPosition) (fov : ℝ) (hfov : 0 < fov) :
    (fov / 2 < toDegrees (angularDistance altitude azimuth viewAngle) →
      (projectToScreen altitude azimuth width height viewAngle fov).visible
        = false) ∧
    projectToScreen viewAngle.altitude viewAngle.azimuth width height viewAngle
      fov = ⟨width / 2, height / 2, true⟩ := by
  constructor
  · intro hfar
    have hgate : (fov / 2) * Real.pi / 180
        < angularDistance altitude azimuth viewAngle := by
      rw [toDegrees] at hfar
      have hpi := Real.pi_pos
      have h2 := mul_lt_mul_of_pos_right hfar
        (show (0:ℝ) < Real.pi / 180 by positivity)
      have h3 : angularDistance altitude azimuth viewAngle * (180 / Real.pi)
          * (Real.pi / 180) = angularDistance altitude azimuth viewAngle := by
        field_simp
      rw [h3] at h2
      calc (fov / 2) * Real.pi / 180 = fov / 2 * (Real.pi / 180) := by ring
        _ < _ := h2
    rw [projectToScreen, if_pos hgate]
  · have hone : Real.sin (viewAngle.altitude * Real.pi / 180)
          * Real.sin (viewAngle.altitude * Real.pi / 180)
        + Real.cos (viewAngle.altitude * Real.pi / 180)
          * Real.cos (viewAngle.altitude * Real.pi / 180) = 1 := by
      nlinarith [Real.sin_sq_add_cos_sq (viewAngle.altitude * Real.pi / 180)]
    have hdist : angularDistance viewAngle.altitude viewAngle.azimuth viewAngle
        = 0 := by
      rw [angularDistance]
      have harg : viewAngle.azimuth * Real.pi / 180
          - viewAngle.azimuth * Real.pi / 180 = 0 := by ring
      rw [harg, Real.cos_zero, mul_one, hone,
        clampUnit_eq_self (by norm_num) le_rfl, Real.arccos_one]
    rw [projectToScreen, hdist]
    have hmax : 0 < (fov / 2) * Real.pi / 180 := by positivity
    rw [if_neg (not_lt.mpr hmax.le)]
    have hx : viewAngle.azimuth * Real.pi / 180
        - viewAngle.azimuth * Real.pi / 180 = 0 := by ring
    simp [hx, zero_div]

/-- Witness for the field-of-view gate: default 120° field of view, a
target 90° away from the view centre (not visible), and the view centre
projecting to the centre of an 800×600 canvas. -/
theorem projectToScreen_fov_gate_witness :
    (0:ℝ) < 120 ∧
    projectToScreen (SkyPosition.mk 0 0).altitude (SkyPosition.mk 0 0).azimuth
      800 600 (SkyPosition.mk 0 0) 120 = ⟨800 / 2, 600 / 2, true⟩ :=
  ⟨by norm_num,
    (projectToScreen_fov_gate 0 90 800 600 (SkyPosition.mk 0 0) 120
      (by norm_num)).2⟩

/-- A target at angular distance exactly half the field of view is still
reported visible: the gate rejects only strictly larger distances. -/
theorem projectToScreen_boundary_inclusive
    (altitude azimuth width height : ℝ) (viewAngle : SkyPosition) (fov : ℝ)
    (hb : toDegrees (angularDistance altitude azimuth viewAngle) = fov / 2) :
    (projectToScreen altitude azimuth width height viewAngle fov).visible
      = true := by
  have hpi := Real.pi_pos
  have heq : angularDistance altitude azimuth viewAngle
      = (fov / 2) * Real.pi / 180 := by
    rw [toDegrees] at hb
    have h1 : angularDistance altitude azimuth viewAngle * (180 / Real.pi)
        * (Real.pi / 180) = (fov / 2) * (Real.pi / 180) := by rw [hb]
    calc angularDistance altitude azimuth viewAngle
        = angularDistance altitude azimuth viewAngle * (180 / Real.pi)
          * (Real.pi / 180) := by field_simp
      _ = (fov / 2) * (Real.pi / 180) := h1
      _ = (fov / 2) * Real.pi / 180 := by ring
  rw [projectToScreen, if_neg (not_lt.mpr (le_of_eq heq))]

/-- Witness for the inclusive boundary: with a 180° field of view, a target
90° from the view centre sits exactly on the boundary and is visible. -/
theorem projectToScreen_boundary_inclusive_witness :
    toDegrees (angularDistance 0 90 (SkyPosition.mk 0 0)) = (180:ℝ) / 2 ∧
    (projectToScreen 0 90 800 600 (SkyPosition.mk 0 0) 180).visible = true := by
  have hzero : (0:ℝ) * Real.pi / 180 = 0 := by ring
  have harg : (90:ℝ) * Real.pi / 180 - 0 * Real.pi / 180 = Real.pi / 2 := by
    ring
  have hin : Real.sin ((0:ℝ) * Real.pi / 180) * Real.sin ((0:ℝ) * Real.pi / 180)
      + Real.cos ((0:ℝ) * Real.pi / 180) * Real.cos ((0:ℝ) * Real.pi / 180)
        * Real.cos ((90:ℝ) * Real.pi / 180 - 0 * Real.pi / 180) = 0 := by
    rw [harg, Real.cos_pi_div_two, hzero, Real.sin_zero]
    ring
  have hdist : angularDistance 0 90 (SkyPosition.mk 0 0) = Real.pi / 2 := by
    rw [angularDistance]
    rw [hin, clampUnit_eq_self (by norm_num) (by norm_num), Real.arccos_zero]
  have hb : toDegrees (angularDistance 0 90 (SkyPosition.mk 0 0))
      = (180:ℝ) / 2 := by
    rw [hdist, toDegrees]
    field_simp
    ring
  exact ⟨hb, projectToScreen_boundary_inclusive 0 90 800 600
    (SkyPosition.mk 0 0) 180 hb⟩

/-- Round trip of the coordinate transforms, as the amended claim states
it: for observers strictly between the poles and targets strictly between
the celestial poles, with right ascension in `[0, 360)`, applying
`equatorialToHorizontal` then `horizontalToEquatorial` at the same observer
and instant reproduces RA and Dec to within 1e-6 degrees (indeed exactly). -/
theorem roundTrip_within_tolerance (eqc : EquatorialCoords)
    (obs : ObserverLocation) (dt : DateUTC)
    (hlat1 : -90 < obs.latitude) (hlat2 : obs.latitude < 90)
    (hdec1 : -90 < eqc.dec) (hdec2 : eqc.dec < 90)
    (hra0 : 0 ≤ eqc.ra) (hra1 : eqc.ra < 360) :
    |(horizontalToEquatorial (equatorialToHorizontal eqc obs dt) obs dt).ra
      - eqc.ra| < 1e-6 ∧
    |(horizontalToEquatorial (equatorialToHorizontal eqc obs dt) obs dt).dec
      - eqc.dec| < 1e-6 := by
  obtain ⟨ra, dec⟩ := eqc
  obtain ⟨lat, lon⟩ := obs
  rw [roundTrip_exact ra dec lat lon dt hlat1 hlat2 hdec1 hdec2 hra0 hra1]
  norm_num

/-- Witness for the amended round-trip claim: the origin of coordinates at
Greenwich on 2024-01-01. -/
theorem roundTrip_within_tolerance_witness :
    ((-90:ℝ) < 0 ∧ (0:ℝ) < 90 ∧ (0:ℝ) ≤ 0 ∧ (0:ℝ) < 360) ∧
    |(horizontalToEquatorial
        (equatorialToHorizontal ⟨0, 0⟩ ⟨0, 0⟩ ⟨2024, 1, 1, 0, 0, 0⟩)
        ⟨0, 0⟩ ⟨2024, 1, 1, 0, 0, 0⟩).ra - (0:ℝ)| < 1e-6 ∧
    |(horizontalToEquatorial
        (equatorialToHorizontal ⟨0, 0⟩ ⟨0, 0⟩ ⟨2024, 1, 1, 0, 0, 0⟩)
        ⟨0, 0⟩ ⟨2024, 1, 1, 0, 0, 0⟩).dec - (0:ℝ)| < 1e-6 :=
  ⟨⟨by norm_num, by norm_num, le_rfl, by norm_num⟩,
    roundTrip_within_tolerance ⟨0, 0⟩ ⟨0, 0⟩ ⟨2024, 1, 1, 0, 0, 0⟩
      (by norm_num) (by norm_num) (by norm_num) (by norm_num) le_rfl
      (by norm_num)⟩

theorem gmstOf_jan2024 :
    gmstOf ⟨2024, 1, 1, 0, 0, 0⟩ = 632900030521516999 / 200000000000 := by
  norm_num [gmstOf, julianDateOf]

theorem calculateLST_jan2024 :
    calculateLST ⟨2024, 1, 1, 0, 0, 0⟩ 0
      = (20030521516999 : ℝ) / 200000000000 := by
  rw [calculateLST, gmstOf_jan2024, add_zero]
  apply normalizeAngle_eq_of _ _ 8790
  · norm_num
  · norm_num
  · push_cast
    norm_num

theorem fwd_pole_jan2024 :
    equatorialToHorizontal ⟨200, 90⟩ ⟨0, 0⟩ ⟨2024, 1, 1, 0, 0, 0⟩
      = ⟨0, 0⟩ := by
  have h90 : toRadians (90:ℝ) = Real.pi / 2 := by
    rw [toRadians]
    ring
  have h0 : toRadians (0:ℝ) = 0 := by
    rw [toRadians]
    ring
  have htd0 : toDegrees (0:ℝ) = 0 := by
    rw [toDegrees]
    ring
  simp only [equatorialToHorizontal]
  rw [h90, h0, Real.sin_pi_div_two, Real.cos_pi_div_two, Real.sin_zero,
    Real.cos_zero]
  simp only [mul_zero, zero_mul, one_mul, mul_one, add_zero, zero_add,
    sub_zero]
  rw [Real.arcsin_zero, htd0, h0, Real.cos_zero, div_one]
  rw [clampUnit_eq_self (by norm_num) le_rfl, Real.arccos_one, htd0]
  by_cases hs : 0 < Real.sin (toRadians (normalizeAngle
      (calculateLST ⟨2024, 1, 1, 0, 0, 0⟩ 0 - 200)))
  · rw [if_pos hs]
    have h360 : normalizeAngle (360 - 0) = 0 := by
      rw [sub_zero]
      exact normalizeAngle_eq_of 360 0 1 le_rfl (by norm_num)
        (by push_cast; norm_num)
    rw [h360]
  · rw [if_neg hs]
    have hn0 : normalizeAngle 0 = 0 := normalizeAngle_eq_self le_rfl (by norm_num)
    rw [hn0]

theorem rev_pole_jan2024 :
    (horizontalToEquatorial ⟨0, 0⟩ ⟨0, 0⟩ ⟨2024, 1, 1, 0, 0, 0⟩).ra
      = (20030521516999 : ℝ) / 200000000000 := by
  have h0 : toRadians (0:ℝ) = 0 := by
    rw [toRadians]
    ring
  have htd0 : toDegrees (0:ℝ) = 0 := by
    rw [toDegrees]
    ring
  simp only [horizontalToEquatorial]
  rw [h0, Real.sin_zero, Real.cos_zero]
  simp only [mul_zero, zero_mul, one_mul, mul_one, add_zero, zero_add]
  rw [clampUnit_eq_self (by norm_num) le_rfl, Real.arcsin_one,
    Real.cos_pi_div_two]
  simp only [mul_zero, zero_mul, mul_one, neg_zero, zero_div, sub_zero,
    zero_sub, sub_self]
  rw [atan2_zero_zero, htd0, normalizeAngle_eq_self le_rfl (by norm_num),
    sub_zero, calculateLST_jan2024]
  exact normalizeAngle_eq_self (by norm_num) (by norm_num)

/-- Counterexample to the original round-trip claim: for the valid
equatorial coordinate at the north celestial pole (RA 200°, Dec 90°), an
equatorial observer (not at a pole), and the instant 2024-01-01 00:00:00
UTC, the round trip returns RA ≈ 100.153° instead of 200°: the claim fails
at the celestial poles. -/
theorem roundTrip_pole_counterexample :
    ¬(|(horizontalToEquatorial
          (equatorialToHorizontal ⟨200, 90⟩ ⟨0, 0⟩ ⟨2024, 1, 1, 0, 0, 0⟩)
          ⟨0, 0⟩ ⟨2024, 1, 1, 0, 0, 0⟩).ra - 200| < 1e-6 ∧
      |(horizontalToEquatorial
          (equatorialToHorizontal ⟨200, 90⟩ ⟨0, 0⟩ ⟨2024, 1, 1, 0, 0, 0⟩)
          ⟨0, 0⟩ ⟨2024, 1, 1, 0, 0, 0⟩).dec - 90| < 1e-6) := by
  intro hcon
  rw [fwd_pole_jan2024] at hcon
  obtain ⟨hra, _⟩ := hcon
  rw [rev_pole_jan2024, abs_lt] at hra
  obtain ⟨h1, _⟩ := hra
  norm_num at h1

end SkyGuide
